import Mathlib

set_option maxHeartbeats 1000000

/-!
Verification development for the table-construct-system repository.

The file shallowly embeds the two cores of the repository:

* the XML-to-HTML tree transducer of
  `src/table-construct-front/src/utils/xml2html.js` (`escapeHtml`,
  `nodeToHtml`, `xml2html`, `xml2htmlFragment`), together with the storage
  facade (`setStorage`, `getStorage`, `removeStorage`, `clearStorage`) and
  the table-id store (`updateTableOrder`) found in the same source bundle;

* the duplicate-tolerant selection store of the DisplayView component in
  `src/table-construct-front/src/router/index.js` (`addToSelected`,
  `removeSelectedByIndex`).

JavaScript strings are modelled by `String`, arrays by `List`, objects by
structures; the browser `DOMParser` (an external collaborator, not part of
the repository) is modelled from the spec as a recursive-descent XML parser
producing the spec's ParsedNode tree shape.
-/

namespace TCS

/-- The double-quote character (written via its code point to keep the
source free of quote-literal pitfalls). -/
def quoteChar : Char := Char.ofNat 34

/-- The apostrophe character. -/
def aposChar : Char := Char.ofNat 39

/-- Per-character replacement of `escapeHtml`
(`src/table-construct-front/src/utils/xml2html.js` lines 11-23): the regex
`/[&<>"']/g` is a single-character class, so the whole replace is a
character-wise map. -/
def escapeChar (c : Char) : String :=
  if c = '&' then "&amp;"
  else if c = '<' then "&lt;"
  else if c = '>' then "&gt;"
  else if c = quoteChar then "&quot;"
  else if c = aposChar then "&#39;"
  else String.singleton c

/-- Character-list form of the escaping map. -/
def escList : List Char → List Char
  | [] => []
  | c :: cs => (escapeChar c).data ++ escList cs

/-- `escapeHtml` from xml2html.js lines 11-23.  Non-string inputs (which JS
maps to `''`) are outside the `String` model. -/
def escapeHtml (s : String) : String := String.mk (escList s.data)

/-- JavaScript `String.prototype.trim`: strip leading and trailing
whitespace. -/
def jsTrim (s : String) : String :=
  String.mk (((s.data.dropWhile Char.isWhitespace).reverse.dropWhile Char.isWhitespace).reverse)

/-- JS `!s.trim()`: the string is empty or whitespace-only. -/
def isBlank (s : String) : Bool := s.data.all Char.isWhitespace

/-- The options object taken by `xml2html` / `nodeToHtml` /
`xml2htmlFragment` (xml2html.js lines 63-68 and 167-172), with the
source's default values. -/
structure Options where
  preserveAttributes : Bool := true
  preserveTextNodes : Bool := true
  tagMapping : List (String × String) := []
  wrapperTag : String := ""

/-- The ParsedNode tree produced by the XML parser: the node kinds that
`nodeToHtml` distinguishes (element / text / CDATA / comment; the document
node is represented by its root element). -/
inductive XNode : Type where
  | elem : String → List (String × String) → List XNode → XNode
  | text : String → XNode
  | cdata : String → XNode
  | comment : String → XNode

/-- JS `a || b` on strings: `''` is falsy. -/
def jsOr (a b : String) : String := if a = "" then b else a

/-- JS object lookup `tagMapping[tagName]`, with `undefined` collapsed to
`''` (both are falsy in the `||` chain it feeds). -/
def lookupTag (m : List (String × String)) (t : String) : String :=
  match m.find? (fun p => p.1 == t) with
  | some p => p.2
  | none => ""

/-- JS `toLowerCase` (character-wise ASCII lowering, as `String.toLower`
computes it). -/
def strToLower (s : String) : String := String.mk (s.data.map Char.toLower)

/-- `const htmlTagName = tagMapping[tagName] || tagName || 'div'` with
`tagName = node.tagName ? node.tagName.toLowerCase() : ''`
(xml2html.js lines 90-91). -/
def htmlTagNameOf (opts : Options) (tag : String) : String :=
  jsOr (jsOr (lookupTag opts.tagMapping (strToLower tag)) (strToLower tag)) "div"

/-- The fixed self-closing tag set (xml2html.js line 119). -/
def selfClosingTags : List String :=
  ["br", "hr", "img", "input", "meta", "link", "area", "base", "col",
   "embed", "source", "track", "wbr"]

/-- One attribute's contribution `` ` ${attrName}="${escapeHtml(attrValue)}"` ``
(xml2html.js line 101); the JS fallbacks `attr.name || attr.nodeName` and
`attr.value || attr.nodeValue || ''` collapse to the pair's fields. -/
def attrHtml (a : String × String) : String :=
  " " ++ a.1 ++ "=\x22" ++ escapeHtml a.2 ++ "\x22"

/-- Concatenation of a list of strings (the `+=` accumulation loops). -/
def strJoin : List String → String
  | [] => ""
  | s :: rest => s ++ strJoin rest

/-- The attribute loop of `nodeToHtml` (xml2html.js lines 96-103). -/
def attrsHtml (opts : Options) (attrs : List (String × String)) : String :=
  if opts.preserveAttributes then strJoin (attrs.map attrHtml) else ""

mutual
/-- `nodeToHtml` (xml2html.js lines 63-150).  In the element case the JS
accumulation `if (childHtml) { childrenHtml += childHtml; hasChildren = true }`
makes `childrenHtml` the plain concatenation of all child outputs (skipping
empty strings does not change a concatenation) and `hasChildren` equivalent
to `childrenHtml !== ''`. -/
def nodeToHtml (opts : Options) : XNode → String
  | .text s => if opts.preserveTextNodes then escapeHtml (jsTrim s) else ""
  | .cdata s => s
  | .comment s => "<!--" ++ s ++ "-->"
  | .elem tag attrs children =>
      let name := htmlTagNameOf opts tag
      let childrenHtml := nodesToHtml opts children
      let opening := "<" ++ name ++ attrsHtml opts attrs
      if name ∈ selfClosingTags ∧ childrenHtml = "" then opening ++ " />"
      else opening ++ ">" ++ childrenHtml ++ "</" ++ name ++ ">"

/-- The child loop of `nodeToHtml` (also the document-node branch, lines
140-147: concatenation of the children's transductions). -/
def nodesToHtml (opts : Options) : List XNode → String
  | [] => ""
  | c :: cs => nodeToHtml opts c ++ nodesToHtml opts cs
end

/-! ### The XML parser

Modelled from the spec: the repository parses XML with the browser's
`DOMParser` (`parseXML`, xml2html.js lines 30-52), an external collaborator
whose code is not in the repository.  The spec abstracts it as "parse XML
text into a ParsedNode tree" over the tagged union
Element/Text/CDATA/Comment/Document, failing (parser-error node, i.e.
`none` here) on malformed input such as mismatched tags.  The recursive
descent below implements that contract: elements with attributes, text with
the five predefined entities, CDATA sections, comments (whose content may
not contain `--`, as in XML), failure otherwise. -/

/-- Modelled from the spec: XML name characters (letters, digits,
`_ - : .`) as accepted by the external parser. -/
def isNameChar (c : Char) : Bool :=
  c.isAlphanum || c = '_' || c = '-' || c = ':' || c = '.'

/-- Drop leading whitespace. -/
def skipWs : List Char → List Char
  | [] => []
  | c :: cs => if c.isWhitespace then skipWs cs else c :: cs

/-- Decode one character reference after a `&`. -/
def parseEntity : List Char → Option (Char × List Char)
  | 'a' :: 'm' :: 'p' :: ';' :: rest => some ('&', rest)
  | 'l' :: 't' :: ';' :: rest => some ('<', rest)
  | 'g' :: 't' :: ';' :: rest => some ('>', rest)
  | 'q' :: 'u' :: 'o' :: 't' :: ';' :: rest => some (quoteChar, rest)
  | 'a' :: 'p' :: 'o' :: 's' :: ';' :: rest => some (aposChar, rest)
  | '#' :: '3' :: '9' :: ';' :: rest => some (aposChar, rest)
  | _ => none

/-- Quoted attribute value up to the closing quote `q`, decoding entities;
a raw `<` or an invalid reference is malformed. -/
def parseQuoted (q : Char) : Nat → List Char → Option (List Char × List Char)
  | 0, _ => none
  | _ + 1, [] => none
  | fuel + 1, c :: cs =>
    if c = q then some ([], cs)
    else if c = '<' then none
    else if c = '&' then
      match parseEntity cs with
      | none => none
      | some (d, rest) =>
        match parseQuoted q fuel rest with
        | none => none
        | some (v, rest2) => some (d :: v, rest2)
    else
      match parseQuoted q fuel cs with
      | none => none
      | some (v, rest2) => some (c :: v, rest2)

/-- Attribute list `name="value"`, separated by whitespace. -/
def parseAttrs : Nat → List Char → Option (List (String × String) × List Char)
  | 0, _ => none
  | fuel + 1, cs =>
    match skipWs cs with
    | [] => some ([], [])
    | c :: rest =>
      if isNameChar c then
        let nm := (c :: rest).takeWhile isNameChar
        match (c :: rest).dropWhile isNameChar with
        | '=' :: q :: rest4 =>
          if q = quoteChar ∨ q = aposChar then
            match parseQuoted q fuel rest4 with
            | none => none
            | some (v, rest5) =>
              match parseAttrs fuel rest5 with
              | none => none
              | some (attrs, rest6) => some ((String.mk nm, String.mk v) :: attrs, rest6)
          else none
        | _ => none
      else some ([], c :: rest)

/-- Text run up to the next `<` (or end of input), decoding entities; a
bare `&` is malformed. -/
def parseText : Nat → List Char → Option (List Char × List Char)
  | 0, _ => none
  | _ + 1, [] => some ([], [])
  | fuel + 1, c :: cs =>
    if c = '<' then some ([], c :: cs)
    else if c = '&' then
      match parseEntity cs with
      | none => none
      | some (d, rest) =>
        match parseText fuel rest with
        | none => none
        | some (t, rest2) => some (d :: t, rest2)
    else
      match parseText fuel cs with
      | none => none
      | some (t, rest2) => some (c :: t, rest2)

/-- Comment body up to the first `--`, which must be followed by `>`
(XML forbids `--` inside comments). -/
def parseCommentBody : Nat → List Char → Option (List Char × List Char)
  | 0, _ => none
  | _ + 1, '-' :: '-' :: rest =>
    match rest with
    | '>' :: rest2 => some ([], rest2)
    | _ => none
  | fuel + 1, c :: cs =>
    match parseCommentBody fuel cs with
    | none => none
    | some (b, rest) => some (c :: b, rest)
  | _ + 1, [] => none

/-- CDATA body up to the closing `]]>`. -/
def parseCDataBody : Nat → List Char → Option (List Char × List Char)
  | 0, _ => none
  | _ + 1, ']' :: ']' :: '>' :: rest => some ([], rest)
  | fuel + 1, c :: cs =>
    match parseCDataBody fuel cs with
    | none => none
    | some (b, rest) => some (c :: b, rest)
  | _ + 1, [] => none

mutual
/-- Modelled from the spec: parse one element `<name attrs>…</name>` or
`<name attrs/>`.  The close tag must repeat the open tag's name exactly,
otherwise the document is malformed. -/
def parseElement : Nat → List Char → Option (XNode × List Char)
  | 0, _ => none
  | fuel + 1, cs =>
    match cs with
    | '<' :: cs1 =>
      let nm := cs1.takeWhile isNameChar
      if nm.isEmpty then none
      else
        match parseAttrs (fuel + 1) (cs1.dropWhile isNameChar) with
        | none => none
        | some (attrs, cs3) =>
          match cs3 with
          | '/' :: '>' :: cs4 => some (.elem (String.mk nm) attrs [], cs4)
          | '>' :: cs4 =>
            match parseContent fuel cs4 with
            | none => none
            | some (children, cs5) =>
              match cs5 with
              | '<' :: '/' :: cs6 =>
                let nm2 := cs6.takeWhile isNameChar
                if nm2 = nm then
                  match skipWs (cs6.dropWhile isNameChar) with
                  | '>' :: cs8 => some (.elem (String.mk nm) attrs children, cs8)
                  | _ => none
                else none
              | _ => none
          | _ => none
    | _ => none

/-- Modelled from the spec: parse a run of child nodes, stopping before a
close tag or at the end of input. -/
def parseContent : Nat → List Char → Option (List XNode × List Char)
  | 0, _ => none
  | fuel + 1, cs =>
    match cs with
    | [] => some ([], [])
    | '<' :: '/' :: rest => some ([], '<' :: '/' :: rest)
    | '<' :: '!' :: '-' :: '-' :: rest =>
      match parseCommentBody (fuel + 1) rest with
      | none => none
      | some (body, cs2) =>
        match parseContent fuel cs2 with
        | none => none
        | some (ns, cs3) => some (.comment (String.mk body) :: ns, cs3)
    | '<' :: '!' :: '[' :: 'C' :: 'D' :: 'A' :: 'T' :: 'A' :: '[' :: rest =>
      match parseCDataBody (fuel + 1) rest with
      | none => none
      | some (body, cs2) =>
        match parseContent fuel cs2 with
        | none => none
        | some (ns, cs3) => some (.cdata (String.mk body) :: ns, cs3)
    | '<' :: rest =>
      match parseElement fuel ('<' :: rest) with
      | none => none
      | some (n, cs2) =>
        match parseContent fuel cs2 with
        | none => none
        | some (ns, cs3) => some (n :: ns, cs3)
    | _ =>
      match parseText (fuel + 1) cs with
      | none => none
      | some (t, cs2) =>
        if t.isEmpty then none
        else
          match parseContent fuel cs2 with
          | none => none
          | some (ns, cs3) => some (.text (String.mk t) :: ns, cs3)
end

/-- Modelled from the spec: `parseXML` (xml2html.js lines 30-52) delegates
to the browser `DOMParser`, an external collaborator whose code is not in
the repository.  Blank input and parse failures (the `parsererror` check)
yield `null`; otherwise the document, here represented by its root
element.  The fuel `length + 2` is ample: every recursive descent step
consumes at least one character. -/
def parseXML (s : String) : Option XNode :=
  if isBlank s then none
  else
    match parseElement (s.data.length + 2) (skipWs s.data) with
    | none => none
    | some (root, rest) => if skipWs rest = [] then some root else none

/-- `xml2html` (xml2html.js lines 162-190): blank or unparseable input
returns `''`; otherwise the transduction of the document element, wrapped
in `wrapperTag` when that option is non-empty. -/
def xml2html (s : String) (opts : Options) : String :=
  if isBlank s then ""
  else
    match parseXML s with
    | none => ""
    | some root =>
      let html := nodeToHtml opts root
      if opts.wrapperTag = "" then html
      else "<" ++ opts.wrapperTag ++ ">" ++ html ++ "</" ++ opts.wrapperTag ++ ">"

/-- `rootElement.childNodes` of the document element. -/
def childrenOf : XNode → List XNode
  | .elem _ _ cs => cs
  | _ => []

/-- `xml2htmlFragment` (xml2html.js lines 250-279): same algorithm but
starting from the children of the document's root element; `wrapperTag` is
not consulted. -/
def xml2htmlFragment (s : String) (opts : Options) : String :=
  if isBlank s then ""
  else
    match parseXML s with
    | none => ""
    | some root => nodesToHtml opts (childrenOf root)

/-! ### A checker for the round-trip escaping property

Formalisation of the spec sentence "output contains no unescaped `<`, `>`,
`&`, `"`, `'` except those forming the markup structure itself": a
deterministic scanner over the output string.  Outside of markup, the four
characters `< > " '` may not occur raw (`<` only as the start of a tag or
comment) and `&` must begin one of the five named entities the escaper
produces; inside a tag, attribute values must satisfy the same discipline.
Tag and comment delimiters themselves are the exempted markup structure. -/

inductive MState : Type where
  | text : MState
  | amp : MState → MState
  | ent : List Char → MState → MState
  | tagOpen : MState
  | openName : MState
  | closeName : Bool → MState
  | inTag : MState
  | slash : MState
  | attrName : MState
  | attrEq : MState
  | attrVal : MState
  | bang1 : MState
  | bang2 : MState
  | comment : MState
  | commDash1 : MState
  | commDash2 : MState
deriving DecidableEq

/-- One scanner step; `none` means an unescaped reserved character (or
broken markup) was found. -/
def mstep : MState → Char → Option MState
  | .text, c =>
    if c = '<' then some .tagOpen
    else if c = '&' then some (.amp .text)
    else if c = '>' then none
    else if c = quoteChar then none
    else if c = aposChar then none
    else some .text
  | .amp ret, c =>
    if c = 'a' then some (.ent ['m', 'p', ';'] ret)
    else if c = 'l' then some (.ent ['t', ';'] ret)
    else if c = 'g' then some (.ent ['t', ';'] ret)
    else if c = 'q' then some (.ent ['u', 'o', 't', ';'] ret)
    else if c = '#' then some (.ent ['3', '9', ';'] ret)
    else none
  | .ent rest ret, c =>
    match rest with
    | [] => none
    | r :: rs => if c = r then (if rs.isEmpty then some ret else some (.ent rs ret)) else none
  | .tagOpen, c =>
    if c = '/' then some (.closeName false)
    else if c = '!' then some .bang1
    else if isNameChar c then some .openName
    else none
  | .openName, c =>
    if isNameChar c then some .openName
    else if c = ' ' then some .inTag
    else if c = '>' then some .text
    else if c = '/' then some .slash
    else none
  | .closeName seen, c =>
    if isNameChar c then some (.closeName true)
    else if c = '>' then (if seen then some .text else none)
    else none
  | .inTag, c =>
    if c = ' ' then some .inTag
    else if isNameChar c then some .attrName
    else if c = '>' then some .text
    else if c = '/' then some .slash
    else none
  | .slash, c => if c = '>' then some .text else none
  | .attrName, c =>
    if isNameChar c then some .attrName
    else if c = '=' then some .attrEq
    else none
  | .attrEq, c => if c = quoteChar then some .attrVal else none
  | .attrVal, c =>
    if c = quoteChar then some .inTag
    else if c = '<' then none
    else if c = '>' then none
    else if c = aposChar then none
    else if c = '&' then some (.amp .attrVal)
    else some .attrVal
  | .bang1, c => if c = '-' then some .bang2 else none
  | .bang2, c => if c = '-' then some .comment else none
  | .comment, c => if c = '-' then some .commDash1 else some .comment
  | .commDash1, c => if c = '-' then some .commDash2 else some .comment
  | .commDash2, c => if c = '>' then some .text else none

/-- Run the scanner over a character list. -/
def scanList : MState → List Char → Option MState
  | st, [] => some st
  | st, c :: cs =>
    match mstep st c with
    | none => none
    | some st2 => scanList st2 cs

/-- The output string is properly escaped markup: the scanner accepts it
and finishes outside of any tag. -/
def wellEscaped (s : String) : Bool :=
  decide (scanList MState.text s.data = some MState.text)

/-- A valid emitted name: non-empty, made of XML name characters. -/
def validName (s : String) : Bool :=
  !s.data.isEmpty && s.data.all isNameChar

/-- Comment content that does not break out of the comment markup: no `--`
inside and no trailing `-` (exactly what parser-produced comments satisfy;
XML forbids `--` in comments). -/
def okCommentChars : List Char → Bool
  | [] => true
  | [c] => if c = '-' then false else true
  | c :: c2 :: cs => if c = '-' && c2 = '-' then false else okCommentChars (c2 :: cs)

mutual
/-- Trees whose transduction the round-trip escaping property can hold of:
every emitted (mapped) tag name and every attribute name is a valid name,
comments cannot break out of their delimiters, and there are no CDATA
sections (CDATA is emitted verbatim and so defeats escaping). -/
def goodNode (opts : Options) : XNode → Bool
  | .elem tag attrs children =>
      validName (htmlTagNameOf opts tag) && attrs.all (fun a => validName a.1) &&
        goodNodes opts children
  | .text _ => true
  | .cdata _ => false
  | .comment s => okCommentChars s.data

/-- `goodNode` on each node of a list. -/
def goodNodes (opts : Options) : List XNode → Bool
  | [] => true
  | c :: cs => goodNode opts c && goodNodes opts cs
end

/-! ### The selection store (DisplayView, router/index.js lines 284-620)

State of the duplicate-tolerant selection store: the current ranked result
list, the in-memory selection, and the three durable records
(`table_ids`, `table_order`, `selected_tables_items`).  Storage is modelled
on its success path here; the facade's failure policy is modelled
separately below.  UI-only fields (current index, messages) are omitted. -/

/-- A ranked search result (`queryTables` mapping in the api module). -/
structure TableInfo where
  id : String
  html : String
  xml : String
  similarity : Int
  metadata : List (String × String)
deriving DecidableEq

/-- A selection entry (`tableItem` built in `addToSelected`): the result's
payload plus the generated `uniqueId`. -/
structure TableItem where
  uniqueId : String
  id : String
  html : String
  xml : String
  similarity : Int
  metadata : List (String × String)
deriving DecidableEq

/-- The store's state. -/
structure StoreState where
  tableList : List TableInfo
  selectedTables : List TableItem
  idsStore : List String
  orderStore : List String
  itemsStore : List TableItem
deriving DecidableEq

/-- `updateTableOrder(orderArray)` (storage module, xml2html.js bundle
lines 531-546): keep the proposal entries whose id is currently stored in
`TABLE_IDS_KEY`, then append the stored ids missing from the proposal. -/
def updateTableOrder (st : StoreState) (orderArray : List String) : StoreState :=
  let ids := st.idsStore
  let validOrder := orderArray.filter (fun i => ids.contains i)
  let missingIds := ids.filter (fun i => !orderArray.contains i)
  { st with orderStore := validOrder ++ missingIds }

/-- The `tableItem` object built by `addToSelected` from a found result,
with the freshly generated `uniqueId` (the nondeterministic
`id + timestamp + random` generation is passed in as `uid`). -/
def mkItem (uid : String) (t : TableInfo) : TableItem :=
  ⟨uid, t.id, t.html, t.xml, t.similarity, t.metadata⟩

/-- `addToSelected(tableId)` (router/index.js lines 399-439).  The method
returns no value; its effect on the state is: falsy id → no-op; id not in
the current `tableList` → no-op; otherwise push the new item onto the
in-memory selection and the items record, push the id onto the ids record,
and run `updateTableOrder` on the order record extended by the id. -/
def addToSelected (st : StoreState) (uid : String) (tableId : String) : StoreState :=
  if tableId = "" then st
  else
    match st.tableList.find? (fun t => t.id == tableId) with
    | none => st
    | some table =>
      let item := mkItem uid table
      let st1 := { st with
        selectedTables := st.selectedTables ++ [item],
        itemsStore := st.itemsStore ++ [item],
        idsStore := st.idsStore ++ [tableId] }
      updateTableOrder st1 (st1.orderStore ++ [tableId])

/-- One-occurrence erasure `ids.splice(ids.indexOf(x), 1)` guarded by
`indexOf !== -1`. -/
def eraseFirst (l : List String) (x : String) : List String :=
  match l.indexOf? x with
  | none => l
  | some _ => l.eraseIdx (l.indexOf x)

/-- `removeSelectedByIndex(index)` (router/index.js lines 440-478):
out-of-range index → no-op; otherwise remove the entry at `index` from the
in-memory selection, remove the item with the same `uniqueId` from the
items record, and — when `index` is in range of the order record — remove
the `index`-th order entry, re-run `updateTableOrder`, and erase one
occurrence of the removed item's id from the ids record. -/
def removeSelectedByIndex (st : StoreState) (index : Nat) : StoreState :=
  if h : index < st.selectedTables.length then
    let tableItem := st.selectedTables.get ⟨index, h⟩
    let st1 := { st with
      selectedTables := st.selectedTables.eraseIdx index,
      itemsStore :=
        match st.itemsStore.findIdx? (fun i => i.uniqueId == tableItem.uniqueId) with
        | none => st.itemsStore
        | some j => st.itemsStore.eraseIdx j }
    if index < st1.orderStore.length then
      let st2 := updateTableOrder st1 (st1.orderStore.eraseIdx index)
      { st2 with idsStore := eraseFirst st2.idsStore tableItem.id }
    else st1
  else st

/-! ### The persistent key-value facade (storage module in the xml2html.js
bundle, lines 304-401)

A storage backend is a record of operations each of which may throw
(modelled by `Except`); `window.localStorage` access itself may throw,
which `getStorageInstance` catches and converts to `null` — modelled by an
`Option Backend` per scope.  JSON serialization and parsing may also throw
(`stringify`/`parse` below).  The facade's contract is that none of this
ever escapes: the embedded functions are total with plain return types. -/

structure Backend where
  getItem : String → Except String (Option String)
  setItem : String → String → Except String Unit
  removeItem : String → Except String Unit
  clearAll : Except String Unit

/-- The browser environment: each storage scope is available (`some`) or
throws on access (`none`, caught inside `getStorageInstance`). -/
structure WindowEnv where
  localStorage : Option Backend
  sessionStorage : Option Backend

/-- `getStorageInstance(type)` (lines 304-316): localStorage for
`'localStorage'`, sessionStorage for `'sessionStorage'`, sessionStorage as
the fallback for anything else; access errors become `null`. -/
def getStorageInstance (env : WindowEnv) (ty : String) : Option Backend :=
  if ty = "localStorage" then env.localStorage
  else if ty = "sessionStorage" then env.sessionStorage
  else env.sessionStorage

/-- `setStorage(key, value, type)` (lines 325-338): serialize and store,
`false` on any failure, `true` on success. -/
def setStorage (env : WindowEnv) (ty : String) (key : String) {α : Type}
    (stringify : α → Except String String) (value : α) : Bool :=
  match getStorageInstance env ty with
  | none => false
  | some storage =>
    match stringify value with
    | .error _ => false
    | .ok s =>
      match storage.setItem key s with
      | .error _ => false
      | .ok _ => true

/-- `getStorage(key, defaultValue, type)` (lines 347-362): the parsed
stored value, or the caller-supplied default when the backend is missing,
the read throws, the key is absent, or parsing throws. -/
def getStorage (env : WindowEnv) (ty : String) (key : String) {α : Type}
    (parse : String → Except String α) (defaultValue : α) : α :=
  match getStorageInstance env ty with
  | none => defaultValue
  | some storage =>
    match storage.getItem key with
    | .error _ => defaultValue
    | .ok none => defaultValue
    | .ok (some v) =>
      match parse v with
      | .error _ => defaultValue
      | .ok x => x

/-- `removeStorage(key, type)` (lines 370-382). -/
def removeStorage (env : WindowEnv) (ty : String) (key : String) : Bool :=
  match getStorageInstance env ty with
  | none => false
  | some storage =>
    match storage.removeItem key with
    | .error _ => false
    | .ok _ => true

/-- `clearStorage(type)` (lines 389-401). -/
def clearStorage (env : WindowEnv) (ty : String) : Bool :=
  match getStorageInstance env ty with
  | none => false
  | some storage =>
    match storage.clearAll with
    | .error _ => false
    | .ok _ => true

/-! ### Shared helper lemmas -/

theorem contains_eq_decide_mem (l : List String) (a : String) :
    l.contains a = decide (a ∈ l) := by
  by_cases h : a ∈ l <;> simp [h, List.elem_iff]

theorem string_ext (s t : String) (h : s.data = t.data) : s = t := by
  cases s; cases t; exact congrArg String.mk h

/-! ### Claim C5: the reorder operation -/

/-- The reorder result as the spec words it: the proposal filtered to ids
present in the current membership, in proposal order, followed by the
current ids missing from the proposal, in their current order. -/
def specReorder (proposal current : List String) : List String :=
  proposal.filter (fun i => decide (i ∈ current)) ++
    current.filter (fun i => decide (i ∉ proposal))

/-- The §8 scenario state: current selection `["t1","t2"]`. -/
def reorderScenario : StoreState :=
  ⟨[], [], ["t1", "t2"], ["t1", "t2"], []⟩

/-- C5: for every proposal array and every current selection,
`updateTableOrder` sets the order record to the proposal filtered to the
stored membership, in proposal order, followed by the stored ids missing
from the proposal, in their stored order; in particular `reorder(["t3"])`
on the selection `["t1","t2"]` leaves the order `["t1","t2"]`. -/
theorem updateTableOrder_matches_spec (st : StoreState) (proposal : List String) :
    (updateTableOrder st proposal).orderStore = specReorder proposal st.idsStore ∧
    (updateTableOrder reorderScenario ["t3"]).orderStore = ["t1", "t2"] := by
  constructor
  · show (updateTableOrder st proposal).orderStore = _
    unfold updateTableOrder specReorder
    dsimp only
    congr 1
    · exact List.filter_congr fun x _ => contains_eq_decide_mem st.idsStore x
    · exact List.filter_congr fun x _ => by
        rw [contains_eq_decide_mem proposal x, decide_not]
  · rfl

/-! ### Claim C9: the storage facade failure policy -/

/-- C9: every underlying storage failure — unavailable backend, a throwing
backend operation, a serialization error on write, a parse error on read —
is absorbed: `getStorage` returns the caller-supplied default and the
mutating operations return `false`; on success `setStorage`,
`removeStorage` and `clearStorage` return `true`.  No failure propagates:
all four embedded functions are total with plain (non-exceptional) return
types. -/
theorem storage_facade_failure_policy (env : WindowEnv) (ty key : String) {α : Type}
    (stringify : α → Except String String) (value : α)
    (parse : String → Except String α) (defaultValue : α) :
    (getStorageInstance env ty = none →
      setStorage env ty key stringify value = false ∧
      getStorage env ty key parse defaultValue = defaultValue ∧
      removeStorage env ty key = false ∧
      clearStorage env ty = false) ∧
    (∀ b, getStorageInstance env ty = some b →
      (∀ e, stringify value = .error e → setStorage env ty key stringify value = false) ∧
      (∀ s, stringify value = .ok s →
        (∀ e, b.setItem key s = .error e → setStorage env ty key stringify value = false) ∧
        (b.setItem key s = .ok () → setStorage env ty key stringify value = true)) ∧
      (∀ e, b.getItem key = .error e → getStorage env ty key parse defaultValue = defaultValue) ∧
      (b.getItem key = .ok none → getStorage env ty key parse defaultValue = defaultValue) ∧
      (∀ v e, b.getItem key = .ok (some v) → parse v = .error e →
        getStorage env ty key parse defaultValue = defaultValue) ∧
      (∀ e, b.removeItem key = .error e → removeStorage env ty key = false) ∧
      (b.removeItem key = .ok () → removeStorage env ty key = true) ∧
      (∀ e, b.clearAll = .error e → clearStorage env ty = false) ∧
      (b.clearAll = .ok () → clearStorage env ty = true)) := by
  constructor
  · intro h
    refine ⟨?_, ?_, ?_, ?_⟩ <;> simp [setStorage, getStorage, removeStorage, clearStorage, h]
  · intro b hb
    refine ⟨?_, ?_, ?_, ?_, ?_, ?_, ?_, ?_, ?_⟩
    · intro e he; simp [setStorage, hb, he]
    · intro s hs
      constructor
      · intro e he; simp [setStorage, hb, hs, he]
      · intro hok; simp [setStorage, hb, hs, hok]
    · intro e he; simp [getStorage, hb, he]
    · intro hn; simp [getStorage, hb, hn]
    · intro v e hv he; simp [getStorage, hb, hv, he]
    · intro e he; simp [removeStorage, hb, he]
    · intro hok; simp [removeStorage, hb, hok]
    · intro e he; simp [clearStorage, hb, he]
    · intro hok; simp [clearStorage, hb, hok]

/-- A backend whose every operation throws. -/
def throwingBackend : Backend :=
  ⟨fun _ => .error "quota", fun _ _ => .error "quota",
   fun _ => .error "quota", .error "quota"⟩

/-- An environment with no localStorage and a throwing sessionStorage. -/
def flakyEnv : WindowEnv := ⟨none, some throwingBackend⟩

theorem storage_facade_failure_policy_witness :
    (getStorageInstance flakyEnv "localStorage" = none ∧
      setStorage flakyEnv "localStorage" "k" (fun (n : Nat) => .ok (toString n)) 0 = false ∧
      getStorage flakyEnv "localStorage" "k" (fun _ => .ok 0) 7 = 7 ∧
      removeStorage flakyEnv "localStorage" "k" = false ∧
      clearStorage flakyEnv "localStorage" = false) ∧
    (getStorageInstance flakyEnv "sessionStorage" = some throwingBackend ∧
      throwingBackend.getItem "k" = .error "quota" ∧
      getStorage flakyEnv "sessionStorage" "k" (fun _ => .ok (0 : Nat)) 7 = 7) :=
  ⟨⟨rfl,
    (storage_facade_failure_policy flakyEnv "localStorage" "k"
      (fun (n : Nat) => .ok (toString n)) 0 (fun _ => .ok 0) 7).1 rfl |>.1,
    (storage_facade_failure_policy flakyEnv "localStorage" "k"
      (fun (n : Nat) => .ok (toString n)) 0 (fun _ => .ok 0) 7).1 rfl |>.2.1,
    (storage_facade_failure_policy flakyEnv "localStorage" "k"
      (fun (n : Nat) => .ok (toString n)) 0 (fun _ => .ok 0) 7).1 rfl |>.2.2.1,
    (storage_facade_failure_policy flakyEnv "localStorage" "k"
      (fun (n : Nat) => .ok (toString n)) 0 (fun _ => .ok 0) 7).1 rfl |>.2.2.2⟩,
   ⟨rfl, rfl,
    ((storage_facade_failure_policy flakyEnv "sessionStorage" "k"
      (fun (n : Nat) => .ok (toString n)) 0 (fun _ => .ok (0 : Nat)) 7).2
      throwingBackend rfl).2.2.1 "quota" rfl⟩⟩

/-! ### Claim C4: silent degrade on blank or malformed input -/

/-- C4: blank input (empty or whitespace-only) and any input the parser
rejects produce the empty string — the function is total, so nothing is
ever raised; in particular `transduce("") = ""`, `transduce("   ") = ""`
and `transduce("<a><b></a>") = ""` (mismatched tags). -/
theorem xml2html_silent_degrade :
    (∀ (s : String) (opts : Options), isBlank s = true → xml2html s opts = "") ∧
    (∀ (s : String) (opts : Options), parseXML s = none → xml2html s opts = "") ∧
    xml2html "" {} = "" ∧ xml2html "   " {} = "" ∧ xml2html "<a><b></a>" {} = "" := by
  refine ⟨?_, ?_, rfl, rfl, by decide⟩
  · intro s opts h; simp [xml2html, h]
  · intro s opts h
    unfold xml2html
    split
    · rfl
    · rw [h]

theorem xml2html_silent_degrade_witness :
    (isBlank " \t " = true ∧ xml2html " \t " {} = "") ∧
    (parseXML "<a" = none ∧ xml2html "<a" {} = "") :=
  ⟨⟨rfl, xml2html_silent_degrade.1 " \t " {} rfl⟩,
   ⟨rfl, xml2html_silent_degrade.2.1 "<a" {} rfl⟩⟩

/-! ### Claim C8: the escaping rule and where it applies -/

/-- C8: the escaper rewrites exactly the five reserved characters to their
named entities and leaves every other character unchanged; the transducer
applies it to every (trimmed) text-node value and every attribute value it
emits, and never to CDATA or comment content (both emitted verbatim). -/
theorem escaper_rule_and_application :
    escapeHtml (String.singleton '&') = "&amp;" ∧
    escapeHtml (String.singleton '<') = "&lt;" ∧
    escapeHtml (String.singleton '>') = "&gt;" ∧
    escapeHtml (String.singleton quoteChar) = "&quot;" ∧
    escapeHtml (String.singleton aposChar) = "&#39;" ∧
    (∀ c : Char, c ≠ '&' → c ≠ '<' → c ≠ '>' → c ≠ quoteChar → c ≠ aposChar →
      escapeHtml (String.singleton c) = String.singleton c) ∧
    (∀ (opts : Options) (s : String), opts.preserveTextNodes = true →
      nodeToHtml opts (.text s) = escapeHtml (jsTrim s)) ∧
    (∀ (opts : Options) (attrs : List (String × String)), opts.preserveAttributes = true →
      attrsHtml opts attrs =
        strJoin (attrs.map fun a => " " ++ a.1 ++ "=\x22" ++ escapeHtml a.2 ++ "\x22")) ∧
    (∀ (opts : Options) (s : String), nodeToHtml opts (.cdata s) = s) ∧
    (∀ (opts : Options) (s : String), nodeToHtml opts (.comment s) = "<!--" ++ s ++ "-->") := by
  refine ⟨rfl, rfl, rfl, rfl, rfl, ?_, ?_, ?_, fun _ _ => rfl, fun _ _ => rfl⟩
  · intro c h1 h2 h3 h4 h5
    show String.mk (escList [c]) = String.singleton c
    simp [escList, escapeChar, h1, h2, h3, h4, h5]
    rfl
  · intro opts s h; simp [nodeToHtml, h]
  · intro opts attrs h
    simp [attrsHtml, h]
    rfl

theorem escaper_rule_and_application_witness :
    (('x' : Char) ≠ '&' ∧ escapeHtml (String.singleton 'x') = String.singleton 'x') ∧
    (Options.preserveTextNodes {} = true ∧
      nodeToHtml {} (.text "  a<b  ") = escapeHtml (jsTrim "  a<b  ")) ∧
    (Options.preserveAttributes {} = true ∧
      attrsHtml {} [("id", "v")] =
        strJoin ([("id", "v")].map fun a => " " ++ a.1 ++ "=\x22" ++ escapeHtml a.2 ++ "\x22")) :=
  ⟨⟨by decide, escaper_rule_and_application.2.2.2.2.2.1 'x'
      (by decide) (by decide) (by decide) (by decide) (by decide)⟩,
   ⟨rfl, escaper_rule_and_application.2.2.2.2.2.2.1 {} "  a<b  " rfl⟩,
   ⟨rfl, escaper_rule_and_application.2.2.2.2.2.2.2.1 {} [("id", "v")] rfl⟩⟩

/-! ### Claims C3 and C1: the add operation of the selection store -/

/-- A ranked result whose id is the empty string. -/
def emptyIdResult : TableInfo := ⟨"", "<p></p>", "<p/>", 1, []⟩

/-- A state whose current result list contains a result with id `""`. -/
def c3State : StoreState := ⟨[emptyIdResult], [], [], [], []⟩

/-- C3 counterexample: the id `""` is present in the current ranked result
list, yet `addToSelected` is a no-op on it (the JS guard `if (!tableId)
return` fires before the lookup), contradicting "for an id that is present
in the current results it appends an entry and returns true" — the method
moreover returns no value at all in JS. -/
theorem add_lookup_contract_counterexample :
    (c3State.tableList.find? (fun t => t.id == "")).isSome = true ∧
    addToSelected c3State "u1" "" = c3State :=
  ⟨rfl, rfl⟩

/-- C3 amended: for every non-empty id, `addToSelected` is a no-op exactly
when the id is not found in the current ranked result list, and when the
id is found it appends the new entry to the in-memory selection, the items
record and the ids record (the JS method itself returns `undefined`, not a
boolean). -/
theorem add_lookup_contract_amended (st : StoreState) (uid tableId : String)
    (h : tableId ≠ "") :
    (addToSelected st uid tableId = st ↔
      st.tableList.find? (fun t => t.id == tableId) = none) ∧
    (∀ table, st.tableList.find? (fun t => t.id == tableId) = some table →
      (addToSelected st uid tableId).selectedTables =
        st.selectedTables ++ [mkItem uid table] ∧
      (addToSelected st uid tableId).itemsStore = st.itemsStore ++ [mkItem uid table] ∧
      (addToSelected st uid tableId).idsStore = st.idsStore ++ [tableId]) := by
  rcases hf : st.tableList.find? (fun t => t.id == tableId) with _ | table
  · refine ⟨⟨fun _ => hf, fun _ => ?_⟩, fun table htab => ?_⟩
    · simp [addToSelected, h, hf]
    · rw [hf] at htab; cases htab
  · constructor
    · constructor
      · intro he
        exfalso
        have hs := congrArg StoreState.selectedTables he
        simp [addToSelected, h, hf, updateTableOrder] at hs
      · intro hn; rw [hf] at hn; cases hn
    · intro table2 htab
      rw [hf] at htab
      injection htab with htab
      subst htab
      refine ⟨?_, ?_, ?_⟩ <;> simp [addToSelected, h, hf, updateTableOrder]

/-- A current result with id `"t1"`. -/
def t1Info : TableInfo := ⟨"t1", "<p>x</p>", "<p>x</p>", 1, []⟩

theorem add_lookup_contract_witness :
    (("t1" : String) ≠ "" ∧
      (addToSelected ⟨[t1Info], [], [], [], []⟩ "u1" "t1" = ⟨[t1Info], [], [], [], []⟩ ↔
        (⟨[t1Info], [], [], [], []⟩ : StoreState).tableList.find?
          (fun t => t.id == "t1") = none)) ∧
    (addToSelected ⟨[], [], [], [], []⟩ "u1" "t2" = ⟨[], [], [], [], []⟩ ↔
      (⟨[], [], [], [], []⟩ : StoreState).tableList.find? (fun t => t.id == "t2") = none) :=
  ⟨⟨by decide, (add_lookup_contract_amended ⟨[t1Info], [], [], [], []⟩ "u1" "t1"
      (by decide)).1⟩,
   (add_lookup_contract_amended ⟨[], [], [], [], []⟩ "u1" "t2" (by decide)).1⟩

/-- A selection entry for `"t1"`. -/
def item1 : TableItem := ⟨"u0", "t1", "<p>x</p>", "<p>x</p>", 1, []⟩

/-- A state whose selection already contains `"t1"` but whose current
result list (from a later search) no longer does. -/
def c1State : StoreState := ⟨[], [item1], ["t1"], ["t1"], [item1]⟩

/-- C1 counterexample: `"t1"` is already present in the selection, yet a
further `addToSelected("t1")` is a no-op — it appends nothing to the id
list or the order list — because the id is no longer in the current ranked
result list (the selection alone does not make an add succeed). -/
theorem duplicate_add_counterexample :
    c1State.selectedTables.any (fun i => i.id == "t1") = true ∧
    addToSelected c1State "u1" "t1" = c1State ∧
    (addToSelected c1State "u1" "t1").idsStore.length = c1State.idsStore.length :=
  ⟨rfl, rfl, rfl⟩

/-- `removeSelectedByIndex` always erases exactly the entry at the given
(in-range) index from the in-memory selection. -/
theorem removeSelectedByIndex_selectedTables (st : StoreState) (i : Nat)
    (hi : i < st.selectedTables.length) :
    (removeSelectedByIndex st i).selectedTables = st.selectedTables.eraseIdx i := by
  simp only [removeSelectedByIndex, dif_pos hi]
  split <;> simp [updateTableOrder]

/-- C1 amended: duplicate selection is supported for every id that is
still present in the current ranked result list (and non-empty): when the
id is already in the selection, a further add appends a second occurrence
of it to the stored id list and to the order list (the latter provided the
two stored lists agree on membership, as every pure add/clear history
guarantees), appends the fresh entry to the selection, makes the id occur
at least twice, and each occurrence remains independently removable by
index. -/
theorem duplicate_add_amended (st : StoreState) (uid tableId : String) (table : TableInfo)
    (hne : tableId ≠ "")
    (hmem : st.selectedTables.any (fun i => i.id == tableId) = true)
    (hfind : st.tableList.find? (fun t => t.id == tableId) = some table)
    (hwf : ∀ x, x ∈ st.orderStore ↔ x ∈ st.idsStore) :
    (addToSelected st uid tableId).idsStore = st.idsStore ++ [tableId] ∧
    (addToSelected st uid tableId).orderStore = st.orderStore ++ [tableId] ∧
    (addToSelected st uid tableId).selectedTables =
      st.selectedTables ++ [mkItem uid table] ∧
    (addToSelected st uid tableId).itemsStore = st.itemsStore ++ [mkItem uid table] ∧
    2 ≤ (addToSelected st uid tableId).selectedTables.countP (fun i => i.id == tableId) ∧
    (∀ i : Nat, i < (addToSelected st uid tableId).selectedTables.length →
      (removeSelectedByIndex (addToSelected st uid tableId) i).selectedTables =
        (addToSelected st uid tableId).selectedTables.eraseIdx i) := by
  have hid : table.id = tableId := by
    have := List.find?_some hfind
    simpa using this
  refine ⟨?_, ?_, ?_, ?_, ?_, ?_⟩
  · simp [addToSelected, hne, hfind, updateTableOrder]
  · show (addToSelected st uid tableId).orderStore = _
    simp only [addToSelected, if_neg hne, hfind, updateTableOrder]
    have hvalid : (st.orderStore ++ [tableId]).filter
        (fun i => (st.idsStore ++ [tableId]).contains i) = st.orderStore ++ [tableId] := by
      refine List.filter_eq_self.mpr fun x hx => ?_
      rw [contains_eq_decide_mem]
      rcases List.mem_append.mp hx with hx | hx
      · exact decide_eq_true (List.mem_append.mpr (Or.inl ((hwf x).mp hx)))
      · exact decide_eq_true (List.mem_append.mpr (Or.inr hx))
    have hmiss : (st.idsStore ++ [tableId]).filter
        (fun i => !(st.orderStore ++ [tableId]).contains i) = [] := by
      refine List.filter_eq_nil_iff.mpr fun x hx => ?_
      rw [contains_eq_decide_mem]
      rcases List.mem_append.mp hx with hx | hx
      · simp [List.mem_append.mpr (Or.inl ((hwf x).mpr hx))]
      · simp [List.mem_append.mpr (Or.inr hx)]
    rw [hvalid, hmiss, List.append_nil]
  · simp [addToSelected, hne, hfind, updateTableOrder]
  · simp [addToSelected, hne, hfind, updateTableOrder]
  · have hsel : (addToSelected st uid tableId).selectedTables =
        st.selectedTables ++ [mkItem uid table] := by
      simp [addToSelected, hne, hfind, updateTableOrder]
    rw [hsel, List.countP_append]
    have h1 : 0 < st.selectedTables.countP (fun i => i.id == tableId) := by
      rcases List.any_eq_true.mp hmem with ⟨a, ha, hpa⟩
      exact List.countP_pos_iff.mpr ⟨a, ha, hpa⟩
    have h2 : ([mkItem uid table].countP (fun i => i.id == tableId)) = 1 := by
      simp [mkItem, hid]
    omega
  · intro i hi
    exact removeSelectedByIndex_selectedTables _ i hi

/-- A state where `"t1"` is both already selected and currently in the
ranked results. -/
def c1WitnessState : StoreState := ⟨[t1Info], [item1], ["t1"], ["t1"], [item1]⟩

theorem duplicate_add_witness :
    (("t1" : String) ≠ "" ∧
      c1WitnessState.selectedTables.any (fun i => i.id == "t1") = true ∧
      c1WitnessState.tableList.find? (fun t => t.id == "t1") = some t1Info) ∧
    ((addToSelected c1WitnessState "u1" "t1").idsStore = c1WitnessState.idsStore ++ ["t1"] ∧
      (addToSelected c1WitnessState "u1" "t1").orderStore =
        c1WitnessState.orderStore ++ ["t1"] ∧
      (addToSelected c1WitnessState "u1" "t1").selectedTables =
        c1WitnessState.selectedTables ++ [mkItem "u1" t1Info] ∧
      (addToSelected c1WitnessState "u1" "t1").itemsStore =
        c1WitnessState.itemsStore ++ [mkItem "u1" t1Info] ∧
      2 ≤ (addToSelected c1WitnessState "u1" "t1").selectedTables.countP
        (fun i => i.id == "t1") ∧
      (∀ i : Nat, i < (addToSelected c1WitnessState "u1" "t1").selectedTables.length →
        (removeSelectedByIndex (addToSelected c1WitnessState "u1" "t1") i).selectedTables =
          (addToSelected c1WitnessState "u1" "t1").selectedTables.eraseIdx i)) :=
  ⟨⟨by decide, rfl, rfl⟩,
   duplicate_add_amended c1WitnessState "u1" "t1" t1Info (by decide) rfl rfl
     (fun x => Iff.rfl)⟩

/-! ### Claim C6: self-closing tag handling -/

theorem lt_not_mem_escapeChar (c : Char) : '<' ∉ (escapeChar c).data := by
  unfold escapeChar
  split_ifs with h1 h2 h3 h4 h5
  · decide
  · decide
  · decide
  · decide
  · decide
  · show ('<' : Char) ∉ [c]
    simp
    exact fun h => h2 h.symm

theorem lt_not_mem_escList (cs : List Char) : '<' ∉ escList cs := by
  induction cs with
  | nil => simp [escList]
  | cons c cs ih =>
    simp only [escList, List.mem_append]
    rintro (h | h)
    · exact lt_not_mem_escapeChar c h
    · exact ih h

theorem validName_parts {s : String} (h : validName s = true) :
    s.data ≠ [] ∧ ∀ c ∈ s.data, isNameChar c = true := by
  unfold validName at h
  rw [Bool.and_eq_true] at h
  refine ⟨?_, fun c hc => List.all_eq_true.mp h.2 c hc⟩
  intro hnil
  rw [hnil] at h
  simp at h

theorem validName_no_lt {s : String} (h : validName s = true) : '<' ∉ s.data := by
  intro hmem
  have := (validName_parts h).2 '<' hmem
  simp [isNameChar] at this

theorem validName_ne_nil {s : String} (h : validName s = true) : s.data ≠ [] :=
  (validName_parts h).1

theorem lt_not_mem_attrHtml {a : String × String} (h : validName a.1 = true) :
    '<' ∉ (attrHtml a).data := by
  unfold attrHtml
  intro hmem
  simp only [String.data_append, List.mem_append] at hmem
  rcases hmem with ((hm | hm) | hm) | hm
  · rcases hm with hm | hm
    · simp at hm
    · exact validName_no_lt h hm
  · simp at hm
  · exact lt_not_mem_escList a.2.data hm
  · simp at hm

theorem lt_not_mem_strJoin (l : List String) (h : ∀ s ∈ l, '<' ∉ s.data) :
    '<' ∉ (strJoin l).data := by
  induction l with
  | nil => simp [strJoin]
  | cons s rest ih =>
    simp only [strJoin, String.data_append, List.mem_append]
    rintro (hm | hm)
    · exact h s (List.mem_cons_self s rest) hm
    · exact ih (fun t ht => h t (List.mem_cons_of_mem s ht)) hm

theorem lt_not_mem_attrsHtml {opts : Options} {attrs : List (String × String)}
    (h : attrs.all (fun a => validName a.1) = true) :
    '<' ∉ (attrsHtml opts attrs).data := by
  unfold attrsHtml
  split
  · refine lt_not_mem_strJoin _ fun s hs => ?_
    rcases List.mem_map.mp hs with ⟨a, ha, rfl⟩
    exact lt_not_mem_attrHtml (List.all_eq_true.mp h a ha)
  · simp

theorem selfClosingTags_valid : ∀ n ∈ selfClosingTags, validName n = true := by decide

/-- C6: an element whose mapped tag name lies in the fixed self-closing
set and which produced no child markup is emitted as a self-closed tag —
the output ends in `/>` and contains no matching close tag anywhere; every
other element always gets a close tag, childless or not. -/
theorem selfclosing_tag_handling (opts : Options) (tag : String)
    (attrs : List (String × String)) (children : List XNode)
    (hattrs : attrs.all (fun a => validName a.1) = true) :
    (htmlTagNameOf opts tag ∈ selfClosingTags ∧ nodesToHtml opts children = "" →
      List.IsSuffix ("/>".data) (nodeToHtml opts (.elem tag attrs children)).data ∧
      ¬ ∃ l r, (nodeToHtml opts (.elem tag attrs children)).data =
        l ++ ("</" ++ htmlTagNameOf opts tag ++ ">").data ++ r) ∧
    (¬ (htmlTagNameOf opts tag ∈ selfClosingTags ∧ nodesToHtml opts children = "") →
      List.IsSuffix (("</" ++ htmlTagNameOf opts tag ++ ">").data)
        (nodeToHtml opts (.elem tag attrs children)).data) := by
  constructor
  · intro hsc
    have hout : nodeToHtml opts (.elem tag attrs children) =
        "<" ++ htmlTagNameOf opts tag ++ attrsHtml opts attrs ++ " />" := by
      simp only [nodeToHtml]
      rw [if_pos ⟨hsc.1, hsc.2⟩]
    constructor
    · rw [hout]
      refine ⟨("<" ++ htmlTagNameOf opts tag ++ attrsHtml opts attrs).data ++ [' '], ?_⟩
      simp [String.data_append]
    · rintro ⟨l, r, heq⟩
      rw [hout] at heq
      have hvalid : validName (htmlTagNameOf opts tag) = true :=
        selfClosingTags_valid _ hsc.1
      have htail : '<' ∉ (htmlTagNameOf opts tag).data ++
          ((attrsHtml opts attrs).data ++ [' ', '/', '>']) := by
        intro hm
        rcases List.mem_append.mp hm with hm | hm
        · exact validName_no_lt hvalid hm
        · rcases List.mem_append.mp hm with hm | hm
          · exact lt_not_mem_attrsHtml hattrs hm
          · simp at hm
      have hshape : ("<" ++ htmlTagNameOf opts tag ++ attrsHtml opts attrs ++ " />").data =
          '<' :: ((htmlTagNameOf opts tag).data ++ ((attrsHtml opts attrs).data ++
            [' ', '/', '>'])) := by
        simp [String.data_append]
      have hpat : ("</" ++ htmlTagNameOf opts tag ++ ">").data =
          '<' :: '/' :: ((htmlTagNameOf opts tag).data ++ ['>']) := by
        simp [String.data_append]
      rw [hshape, hpat] at heq
      cases l with
      | nil =>
        simp only [List.nil_append, List.cons_append] at heq
        injection heq with h1 h2
        rcases hd : (htmlTagNameOf opts tag).data with _ | ⟨c, cs⟩
        · exact validName_ne_nil hvalid hd
        · rw [hd] at h2
          simp only [List.cons_append] at h2
          injection h2 with hc h3
          have hnc : isNameChar c = true :=
            (validName_parts hvalid).2 c (by rw [hd]; exact List.mem_cons_self c cs)
          rw [hc] at hnc
          exact absurd hnc (by decide)
      | cons c l2 =>
        simp only [List.cons_append] at heq
        injection heq with h1 h2
        apply htail
        rw [h2]
        refine List.mem_append.mpr (Or.inl ?_)
        refine List.mem_append.mpr (Or.inr ?_)
        exact List.mem_cons_self _ _
  · intro hns
    have hout : nodeToHtml opts (.elem tag attrs children) =
        "<" ++ htmlTagNameOf opts tag ++ attrsHtml opts attrs ++ ">" ++
          nodesToHtml opts children ++ "</" ++ htmlTagNameOf opts tag ++ ">" := by
      simp only [nodeToHtml]
      rw [if_neg hns]
    rw [hout]
    refine ⟨("<" ++ htmlTagNameOf opts tag ++ attrsHtml opts attrs ++ ">" ++
      nodesToHtml opts children).data, ?_⟩
    simp [String.data_append]

theorem selfclosing_tag_handling_witness :
    ([("id", "x")].all (fun a => validName a.1) = true ∧
      htmlTagNameOf {} "br" ∈ selfClosingTags ∧ nodesToHtml {} [] = "" ∧
      (List.IsSuffix ("/>".data) (nodeToHtml {} (.elem "br" [("id", "x")] [])).data ∧
        ¬ ∃ l r, (nodeToHtml {} (.elem "br" [("id", "x")] [])).data =
          l ++ ("</" ++ htmlTagNameOf {} "br" ++ ">").data ++ r)) ∧
    (¬ (htmlTagNameOf {} "td" ∈ selfClosingTags ∧ nodesToHtml {} ([] : List XNode) = "") ∧
      List.IsSuffix (("</" ++ htmlTagNameOf {} "td" ++ ">").data)
        (nodeToHtml {} (.elem "td" [] [])).data) :=
  ⟨⟨by decide, by decide, rfl,
    (selfclosing_tag_handling {} "br" [("id", "x")] [] (by decide)).1 ⟨by decide, rfl⟩⟩,
   ⟨by decide,
    (selfclosing_tag_handling {} "td" [] [] (by decide)).2 (by decide)⟩⟩

/-! ### Claim C7: the fragment variant strips the root tag -/

theorem parseXML_isBlank_false {x : String} {r : XNode} (hp : parseXML x = some r) :
    isBlank x = false := by
  by_cases h : isBlank x = true
  · rw [parseXML, if_pos h] at hp; cases hp
  · simpa using h

/-- C7: for a single-root document (under default wrapping), the fragment
transduction is exactly the concatenated transduction of the root's
children, and the full transduction is the fragment surrounded by the
root's open and close tags — except that a self-closing childless root is
emitted as a single self-closed tag while the fragment is empty (there is
no open/close pair to strip in that case). -/
theorem fragment_strips_root_tag (x : String) (opts : Options) (tag : String)
    (attrs : List (String × String)) (children : List XNode)
    (hw : opts.wrapperTag = "")
    (hp : parseXML x = some (.elem tag attrs children)) :
    xml2htmlFragment x opts = nodesToHtml opts children ∧
    (htmlTagNameOf opts tag ∈ selfClosingTags ∧ nodesToHtml opts children = "" →
      xml2html x opts = "<" ++ htmlTagNameOf opts tag ++ attrsHtml opts attrs ++ " />" ∧
      xml2htmlFragment x opts = "") ∧
    (¬ (htmlTagNameOf opts tag ∈ selfClosingTags ∧ nodesToHtml opts children = "") →
      xml2html x opts =
        ("<" ++ htmlTagNameOf opts tag ++ attrsHtml opts attrs ++ ">") ++
          xml2htmlFragment x opts ++ ("</" ++ htmlTagNameOf opts tag ++ ">")) := by
  have hb : isBlank x = false := parseXML_isBlank_false hp
  have hfrag : xml2htmlFragment x opts = nodesToHtml opts children := by
    rw [xml2htmlFragment, if_neg (by simp [hb]), hp]
    rfl
  have hfull : xml2html x opts = nodeToHtml opts (.elem tag attrs children) := by
    rw [xml2html, if_neg (by simp [hb]), hp]
    simp [hw]
  refine ⟨hfrag, ?_, ?_⟩
  · intro hsc
    constructor
    · rw [hfull]
      simp only [nodeToHtml]
      rw [if_pos ⟨hsc.1, hsc.2⟩]
    · rw [hfrag, hsc.2]
  · intro hns
    rw [hfull, hfrag]
    simp only [nodeToHtml]
    rw [if_neg hns]
    simp [String.append_assoc]

theorem fragment_strips_root_tag_witness :
    (Options.wrapperTag {} = "" ∧
      parseXML "<a>x<b>y</b></a>" =
        some (.elem "a" [] [.text "x", .elem "b" [] [.text "y"]]) ∧
      (xml2htmlFragment "<a>x<b>y</b></a>" {} =
        nodesToHtml {} [.text "x", .elem "b" [] [.text "y"]] ∧
        (htmlTagNameOf {} "a" ∈ selfClosingTags ∧
            nodesToHtml {} [.text "x", .elem "b" [] [.text "y"]] = "" →
          xml2html "<a>x<b>y</b></a>" {} =
            "<" ++ htmlTagNameOf {} "a" ++ attrsHtml {} [] ++ " />" ∧
          xml2htmlFragment "<a>x<b>y</b></a>" {} = "") ∧
        (¬ (htmlTagNameOf {} "a" ∈ selfClosingTags ∧
            nodesToHtml {} [.text "x", .elem "b" [] [.text "y"]] = "") →
          xml2html "<a>x<b>y</b></a>" {} =
            ("<" ++ htmlTagNameOf {} "a" ++ attrsHtml {} [] ++ ">") ++
              xml2htmlFragment "<a>x<b>y</b></a>" {} ++
              ("</" ++ htmlTagNameOf {} "a" ++ ">")))) :=
  ⟨rfl, rfl,
   fragment_strips_root_tag "<a>x<b>y</b></a>" {} "a" []
     [.text "x", .elem "b" [] [.text "y"]] rfl rfl⟩

/-! ### Claim C2: the round-trip escaping property -/

theorem scanList_append (st : MState) (a b : List Char) :
    scanList st (a ++ b) = (scanList st a).bind (fun st2 => scanList st2 b) := by
  induction a generalizing st with
  | nil => simp [scanList]
  | cons c cs ih =>
    cases h : mstep st c with
    | none => simp [scanList, h]
    | some st2 => simp [scanList, h, ih st2]

theorem scanList_single (st : MState) (c : Char) : scanList st [c] = mstep st c := by
  cases h : mstep st c <;> simp [scanList, h]

theorem mstep_text_plain (c : Char) (h1 : c ≠ '<') (h2 : c ≠ '&') (h3 : c ≠ '>')
    (h4 : c ≠ quoteChar) (h5 : c ≠ aposChar) :
    mstep MState.text c = some MState.text := by
  simp [mstep, h1, h2, h3, h4, h5]

theorem mstep_attrVal_plain (c : Char) (h1 : c ≠ '<') (h2 : c ≠ '&') (h3 : c ≠ '>')
    (h4 : c ≠ quoteChar) (h5 : c ≠ aposChar) :
    mstep MState.attrVal c = some MState.attrVal := by
  simp [mstep, h1, h2, h3, h4, h5]

theorem scan_escapeChar_text (c : Char) :
    scanList MState.text (escapeChar c).data = some MState.text := by
  unfold escapeChar
  split_ifs with h1 h2 h3 h4 h5
  · rfl
  · rfl
  · rfl
  · rfl
  · rfl
  · show scanList MState.text [c] = some MState.text
    rw [scanList_single, mstep_text_plain c h2 h1 h3 h4 h5]

theorem scan_escapeChar_attrVal (c : Char) :
    scanList MState.attrVal (escapeChar c).data = some MState.attrVal := by
  unfold escapeChar
  split_ifs with h1 h2 h3 h4 h5
  · rfl
  · rfl
  · rfl
  · rfl
  · rfl
  · show scanList MState.attrVal [c] = some MState.attrVal
    rw [scanList_single, mstep_attrVal_plain c h2 h1 h3 h4 h5]

theorem scan_escList_text (cs : List Char) :
    scanList MState.text (escList cs) = some MState.text := by
  induction cs with
  | nil => rfl
  | cons c cs ih =>
    rw [escList, scanList_append, scan_escapeChar_text c]
    simpa using ih

theorem scan_escList_attrVal (cs : List Char) :
    scanList MState.attrVal (escList cs) = some MState.attrVal := by
  induction cs with
  | nil => rfl
  | cons c cs ih =>
    rw [escList, scanList_append, scan_escapeChar_attrVal c]
    simpa using ih

theorem scan_name_openName (cs : List Char) (h : ∀ c ∈ cs, isNameChar c = true) :
    scanList MState.openName cs = some MState.openName := by
  induction cs with
  | nil => rfl
  | cons c cs ih =>
    have hc : isNameChar c = true := h c (List.mem_cons_self c cs)
    show (match mstep MState.openName c with
      | none => none
      | some st2 => scanList st2 cs) = some MState.openName
    rw [show mstep MState.openName c = some MState.openName by simp [mstep, hc]]
    exact ih fun d hd => h d (List.mem_cons_of_mem c hd)

theorem scan_name_attrName (cs : List Char) (h : ∀ c ∈ cs, isNameChar c = true) :
    scanList MState.attrName cs = some MState.attrName := by
  induction cs with
  | nil => rfl
  | cons c cs ih =>
    have hc : isNameChar c = true := h c (List.mem_cons_self c cs)
    show (match mstep MState.attrName c with
      | none => none
      | some st2 => scanList st2 cs) = some MState.attrName
    rw [show mstep MState.attrName c = some MState.attrName by simp [mstep, hc]]
    exact ih fun d hd => h d (List.mem_cons_of_mem c hd)

theorem scan_name_closeName (cs : List Char) (h : ∀ c ∈ cs, isNameChar c = true) :
    scanList (MState.closeName true) cs = some (MState.closeName true) := by
  induction cs with
  | nil => rfl
  | cons c cs ih =>
    have hc : isNameChar c = true := h c (List.mem_cons_self c cs)
    show (match mstep (MState.closeName true) c with
      | none => none
      | some st2 => scanList st2 cs) = some (MState.closeName true)
    rw [show mstep (MState.closeName true) c = some (MState.closeName true) by
      simp [mstep, hc]]
    exact ih fun d hd => h d (List.mem_cons_of_mem c hd)

theorem nameChar_ne (c : Char) (hc : isNameChar c = true) :
    c ≠ '/' ∧ c ≠ '!' ∧ c ≠ ' ' ∧ c ≠ '=' ∧ c ≠ '>' := by
  refine ⟨?_, ?_, ?_, ?_, ?_⟩ <;>
    exact fun he => absurd (he ▸ hc) (by decide)

theorem scan_name_tagOpen (s : String) (h : validName s = true) :
    scanList MState.tagOpen s.data = some MState.openName := by
  obtain ⟨hne, hall⟩ := validName_parts h
  rcases hd : s.data with _ | ⟨c, cs⟩
  · exact absurd hd hne
  · have hc : isNameChar c = true := hall c (by rw [hd]; exact List.mem_cons_self c cs)
    obtain ⟨hs, hb, -, -, -⟩ := nameChar_ne c hc
    show (match mstep MState.tagOpen c with
      | none => none
      | some st2 => scanList st2 cs) = some MState.openName
    rw [show mstep MState.tagOpen c = some MState.openName by simp [mstep, hs, hb, hc]]
    exact scan_name_openName cs fun d hd2 =>
      hall d (by rw [hd]; exact List.mem_cons_of_mem c hd2)

theorem scan_close_tag (s : String) (h : validName s = true) :
    scanList MState.text ("</" ++ s ++ ">").data = some MState.text := by
  obtain ⟨hne, hall⟩ := validName_parts h
  have hdata : ("</" ++ s ++ ">").data = ['<', '/'] ++ (s.data ++ ['>']) := by
    simp [String.data_append]
  rw [hdata, scanList_append]
  rw [show scanList MState.text ['<', '/'] = some (MState.closeName false) from rfl]
  rcases hd : s.data with _ | ⟨c, cs⟩
  · exact absurd hd hne
  · have hc : isNameChar c = true := hall c (by rw [hd]; exact List.mem_cons_self c cs)
    show scanList (MState.closeName false) ((c :: cs) ++ ['>']) = some MState.text
    show (match mstep (MState.closeName false) c with
      | none => none
      | some st2 => scanList st2 (cs ++ ['>'])) = some MState.text
    rw [show mstep (MState.closeName false) c = some (MState.closeName true) by
      simp [mstep, hc]]
    show scanList (MState.closeName true) (cs ++ ['>']) = some MState.text
    rw [scanList_append,
      scan_name_closeName cs (fun d hd2 => hall d (by rw [hd]; exact List.mem_cons_of_mem c hd2))]
    rfl

theorem scan_attrHtml (a : String × String) (st : MState)
    (hst : st = MState.openName ∨ st = MState.inTag) (h : validName a.1 = true) :
    scanList st (attrHtml a).data = some MState.inTag := by
  obtain ⟨hne, hall⟩ := validName_parts h
  have hdata : (attrHtml a).data =
      [' '] ++ (a.1.data ++ (['=', quoteChar] ++ (escList a.2.data ++ [quoteChar]))) := by
    simp [attrHtml, escapeHtml, String.data_append]
    decide
  rw [hdata, scanList_append]
  have hsp : mstep st ' ' = some MState.inTag := by
    rcases hst with rfl | rfl <;> rfl
  rw [scanList_single, hsp]
  show scanList MState.inTag
    (a.1.data ++ (['=', quoteChar] ++ (escList a.2.data ++ [quoteChar]))) = some MState.inTag
  rw [scanList_append]
  rcases hd : a.1.data with _ | ⟨c, cs⟩
  · exact absurd hd hne
  · have hc : isNameChar c = true := hall c (by rw [hd]; exact List.mem_cons_self c cs)
    obtain ⟨-, -, hspc, -, -⟩ := nameChar_ne c hc
    rw [show scanList MState.inTag (c :: cs) = scanList MState.attrName cs by
      show (match mstep MState.inTag c with
        | none => none
        | some st2 => scanList st2 cs) = scanList MState.attrName cs
      rw [show mstep MState.inTag c = some MState.attrName by simp [mstep, hspc, hc]]]
    rw [scan_name_attrName cs (fun d hd2 => hall d (by rw [hd]; exact List.mem_cons_of_mem c hd2))]
    show scanList MState.attrName (['=', quoteChar] ++ (escList a.2.data ++ [quoteChar])) =
      some MState.inTag
    rw [scanList_append]
    rw [show scanList MState.attrName ['=', quoteChar] = some MState.attrVal from rfl]
    show scanList MState.attrVal (escList a.2.data ++ [quoteChar]) = some MState.inTag
    rw [scanList_append, scan_escList_attrVal]
    rfl

theorem scan_attrList (attrs : List (String × String)) (st : MState)
    (hst : st = MState.openName ∨ st = MState.inTag)
    (h : ∀ a ∈ attrs, validName a.1 = true) :
    ∃ st2, (st2 = MState.openName ∨ st2 = MState.inTag) ∧
      scanList st (strJoin (attrs.map attrHtml)).data = some st2 := by
  induction attrs generalizing st with
  | nil => exact ⟨st, hst, rfl⟩
  | cons a rest ih =>
    have hdata : (strJoin ((a :: rest).map attrHtml)).data =
        (attrHtml a).data ++ (strJoin (rest.map attrHtml)).data := by
      simp [strJoin, String.data_append]
    rw [hdata, scanList_append,
      scan_attrHtml a st hst (h a (List.mem_cons_self a rest))]
    obtain ⟨st2, hst2, hscan⟩ := ih MState.inTag (Or.inr rfl)
      (fun b hb => h b (List.mem_cons_of_mem a hb))
    exact ⟨st2, hst2, by simpa using hscan⟩

theorem scan_attrsHtml (opts : Options) (attrs : List (String × String)) (st : MState)
    (hst : st = MState.openName ∨ st = MState.inTag)
    (h : attrs.all (fun a => validName a.1) = true) :
    ∃ st2, (st2 = MState.openName ∨ st2 = MState.inTag) ∧
      scanList st (attrsHtml opts attrs).data = some st2 := by
  unfold attrsHtml
  split
  · exact scan_attrList attrs st hst (fun a ha => List.all_eq_true.mp h a ha)
  · exact ⟨st, hst, rfl⟩

theorem okCommentChars_tail {c : Char} {cs : List Char} (hc : c ≠ '-')
    (h : okCommentChars (c :: cs) = true) : okCommentChars cs = true := by
  rcases cs with _ | ⟨c2, cs2⟩
  · rfl
  · simpa [okCommentChars, hc] using h

theorem scan_commentBody : ∀ (n : Nat) (cs : List Char), cs.length ≤ n →
    okCommentChars cs = true →
    scanList MState.comment (cs ++ ['-', '-', '>']) = some MState.text := by
  intro n
  induction n with
  | zero =>
    intro cs hl _
    rw [List.length_eq_zero.mp (Nat.le_zero.mp hl)]
    rfl
  | succ n ih =>
    intro cs hl h
    rcases cs with _ | ⟨c, cs1⟩
    · rfl
    · by_cases hc : c = '-'
      · subst hc
        rcases cs1 with _ | ⟨c2, cs2⟩
        · simp [okCommentChars] at h
        · by_cases hc2 : c2 = '-'
          · subst hc2; simp [okCommentChars] at h
          · have hok1 : okCommentChars (c2 :: cs2) = true := by
              simpa [okCommentChars, hc2] using h
            have hok : okCommentChars cs2 = true := okCommentChars_tail hc2 hok1
            show (match mstep MState.comment '-' with
              | none => none
              | some st2 => scanList st2 ((c2 :: cs2) ++ ['-', '-', '>'])) = some MState.text
            rw [show mstep MState.comment '-' = some MState.commDash1 from rfl]
            show (match mstep MState.commDash1 c2 with
              | none => none
              | some st2 => scanList st2 (cs2 ++ ['-', '-', '>'])) = some MState.text
            rw [show mstep MState.commDash1 c2 = some MState.comment by simp [mstep, hc2]]
            exact ih cs2 (by simp at hl; omega) hok
      · have hok : okCommentChars cs1 = true := okCommentChars_tail hc h
        show (match mstep MState.comment c with
          | none => none
          | some st2 => scanList st2 (cs1 ++ ['-', '-', '>'])) = some MState.text
        rw [show mstep MState.comment c = some MState.comment by simp [mstep, hc]]
        exact ih cs1 (by simp at hl; omega) hok

mutual
/-- Every good node transduces to a string the escaping scanner accepts. -/
theorem scanNode (opts : Options) (t : XNode) (h : goodNode opts t = true) :
    scanList MState.text (nodeToHtml opts t).data = some MState.text := by
  cases t with
  | text s =>
    show scanList MState.text
      (if opts.preserveTextNodes then escapeHtml (jsTrim s) else "").data = some MState.text
    split
    · exact scan_escList_text (jsTrim s).data
    · rfl
  | cdata s => exact absurd h (by simp [goodNode])
  | comment s =>
    have hdata : (nodeToHtml opts (.comment s)).data =
        ['<', '!', '-', '-'] ++ (s.data ++ ['-', '-', '>']) := by
      show (("<!--" ++ s) ++ "-->").data = _
      simp [String.data_append]
    rw [hdata, scanList_append]
    rw [show scanList MState.text ['<', '!', '-', '-'] = some MState.comment from rfl]
    have hok : okCommentChars s.data = true := by simpa [goodNode] using h
    rw [show Option.bind (some MState.comment)
        (fun st2 => scanList st2 (s.data ++ ['-', '-', '>'])) =
        scanList MState.comment (s.data ++ ['-', '-', '>']) from rfl]
    exact scan_commentBody s.data.length s.data (Nat.le_refl _) hok
  | elem tag attrs children =>
    have h3 : goodNode opts (.elem tag attrs children) = true := h
    rw [goodNode, Bool.and_eq_true, Bool.and_eq_true] at h3
    obtain ⟨⟨hname, hattrs⟩, hch⟩ := h3
    have hchildren := scanNodes opts children hch
    show scanList MState.text
      (if htmlTagNameOf opts tag ∈ selfClosingTags ∧ nodesToHtml opts children = ""
       then ("<" ++ htmlTagNameOf opts tag ++ attrsHtml opts attrs) ++ " />"
       else ("<" ++ htmlTagNameOf opts tag ++ attrsHtml opts attrs) ++ ">" ++
         nodesToHtml opts children ++ "</" ++ htmlTagNameOf opts tag ++ ">").data =
      some MState.text
    have hopen : ∀ tail : List Char,
        (∀ st2, (st2 = MState.openName ∨ st2 = MState.inTag) →
          scanList st2 tail = some MState.text) →
        scanList MState.text (("<" ++ htmlTagNameOf opts tag ++ attrsHtml opts attrs).data
          ++ tail) = some MState.text := by
      intro tail htail
      have hdata : ("<" ++ htmlTagNameOf opts tag ++ attrsHtml opts attrs).data =
          ['<'] ++ ((htmlTagNameOf opts tag).data ++ (attrsHtml opts attrs).data) := by
        simp [String.data_append]
      rw [hdata]
      rw [List.append_assoc, List.append_assoc, List.singleton_append]
      rw [show ∀ l, scanList MState.text ('<' :: l) = scanList MState.tagOpen l
        from fun l => rfl]
      rw [scanList_append, scan_name_tagOpen _ hname]
      show scanList MState.openName ((attrsHtml opts attrs).data ++ tail) = some MState.text
      rw [scanList_append]
      obtain ⟨st2, hst2, hscan⟩ := scan_attrsHtml opts attrs MState.openName (Or.inl rfl) hattrs
      rw [hscan]
      exact htail st2 hst2
    split
    · show scanList MState.text
        (("<" ++ htmlTagNameOf opts tag ++ attrsHtml opts attrs) ++ " />").data =
        some MState.text
      rw [String.data_append]
      refine hopen (" />").data fun st2 hst2 => ?_
      rcases hst2 with rfl | rfl <;> rfl
    · show scanList MState.text
        ((((("<" ++ htmlTagNameOf opts tag ++ attrsHtml opts attrs) ++ ">") ++
          nodesToHtml opts children) ++ "</" ++ htmlTagNameOf opts tag ++ ">")).data =
        some MState.text
      have hdata : (((("<" ++ htmlTagNameOf opts tag ++ attrsHtml opts attrs) ++ ">") ++
          nodesToHtml opts children) ++ "</" ++ htmlTagNameOf opts tag ++ ">").data =
          ("<" ++ htmlTagNameOf opts tag ++ attrsHtml opts attrs).data ++
            ([ '>' ] ++ ((nodesToHtml opts children).data ++
              ("</" ++ htmlTagNameOf opts tag ++ ">").data)) := by
        simp [String.data_append]
      rw [hdata]
      refine hopen _ fun st2 hst2 => ?_
      have hgt : mstep st2 '>' = some MState.text := by
        rcases hst2 with rfl | rfl <;> rfl
      show (match mstep st2 '>' with
        | none => none
        | some st3 => scanList st3 ((nodesToHtml opts children).data ++
            ("</" ++ htmlTagNameOf opts tag ++ ">").data)) = some MState.text
      rw [hgt]
      show scanList MState.text ((nodesToHtml opts children).data ++
        ("</" ++ htmlTagNameOf opts tag ++ ">").data) = some MState.text
      rw [scanList_append, hchildren]
      simpa using scan_close_tag _ hname

/-- Every good node list transduces to scanner-accepted markup. -/
theorem scanNodes (opts : Options) (l : List XNode) (h : goodNodes opts l = true) :
    scanList MState.text (nodesToHtml opts l).data = some MState.text := by
  cases l with
  | nil => rfl
  | cons c cs =>
    have h2 : goodNodes opts (c :: cs) = true := h
    rw [goodNodes, Bool.and_eq_true] at h2
    show scanList MState.text (nodeToHtml opts c ++ nodesToHtml opts cs).data = some MState.text
    rw [String.data_append, scanList_append, scanNode opts c h2.1]
    simpa using scanNodes opts cs h2.2
end

/-- The C2 counterexample input: a well-formed document with a CDATA
section whose content contains `<`. -/
def cdataInput : String := "<a><![CDATA[x<y]]></a>"

/-- C2 counterexample: `cdataInput` is well-formed XML, yet the transducer
emits its CDATA content verbatim, so the output `<a>x<y</a>` contains an
unescaped `<` in text position — the scanner rejects it. -/
theorem transduce_escaping_counterexample :
    (parseXML cdataInput).isSome = true ∧
    xml2html cdataInput {} = "<a>x<y</a>" ∧
    wellEscaped (xml2html cdataInput {}) = false :=
  ⟨rfl, rfl, rfl⟩

/-- C2 amended: for every parsed document containing no CDATA section,
whose emitted tag names and attribute names are valid names, and whose
comment contents cannot break out of their delimiters (no `--`, no
trailing `-` — guaranteed for parser-produced comments), the transducer
output (under empty `wrapperTag`) contains no unescaped `< > & " '`
outside the markup structure: the escaping scanner accepts it. -/
theorem transduce_escaping_amended (s : String) (opts : Options) (root : XNode)
    (hw : opts.wrapperTag = "") (hp : parseXML s = some root)
    (hg : goodNode opts root = true) :
    wellEscaped (xml2html s opts) = true := by
  have hb : isBlank s = false := parseXML_isBlank_false hp
  have hx : xml2html s opts = nodeToHtml opts root := by
    rw [xml2html, if_neg (by simp [hb]), hp]
    simp [hw]
  rw [hx]
  unfold wellEscaped
  rw [scanNode opts root hg]
  simp

theorem transduce_escaping_witness :
    (Options.wrapperTag {} = "" ∧
      parseXML "<a b=\x22u&amp;v\x22>x</a>" =
        some (.elem "a" [("b", "u&v")] [.text "x"]) ∧
      goodNode {} (.elem "a" [("b", "u&v")] [.text "x"]) = true) ∧
    wellEscaped (xml2html "<a b=\x22u&amp;v\x22>x</a>" {}) = true :=
  ⟨⟨rfl, rfl, rfl⟩,
   transduce_escaping_amended "<a b=\x22u&amp;v\x22>x</a>" {}
     (.elem "a" [("b", "u&v")] [.text "x"]) rfl rfl rfl⟩

end TCS
